import Mathlib

/-!
Verification development for the per-thread stack/sample selector core of a
performance-profiler (src/selectors/per-thread/stack-sample.js).

The selector composition file is embedded directly.  Helper computations that
the selectors delegate to (the call-node table builder, the call-node path
resolver, the allocation view transforms, the call-tree aggregator, the sample
classifier and the memoization engine) live outside the provided sources; those
are modelled from the specification, and each such definition carries a doc
comment starting with "Modelled from the spec:".
-/

namespace Profiler

/-- Closed set of call-tree summary strategies (type CallTreeSummaryStrategy
in the source). -/
inductive CallTreeSummaryStrategy where
  | timing
  | jsAllocations
  | nativeAllocations
  | nativeRetainedAllocations
  | nativeDeallocationsSites
  | nativeDeallocationsMemory
deriving DecidableEq, Repr

/-- Samples table: per-sample stack index (or none) and timestamp. -/
structure SamplesTable where
  stack : List (Option Nat)
  time : List Rat
deriving DecidableEq, Repr

/-- JS allocations table: per-row stack index, timestamp and byte weight. -/
structure JsAllocationsTable where
  stack : List Nat
  time : List Rat
  weight : List Int
deriving DecidableEq, Repr

/-- Native allocations table: per-row stack index, timestamp, signed byte
weight, and an optional memoryAddress column (the column as a whole may be
absent, which is what the Option on the list models). -/
structure NativeAllocationsTable where
  stack : List Nat
  time : List Rat
  weight : List Int
  memoryAddress : Option (List Nat)
deriving DecidableEq, Repr

/-- Stack table: per-stack frame index and parent stack index, written
"prefix" in the source; parents appear before children in table order. -/
structure StackTable where
  frame : List Nat
  parent : List (Option Nat)
deriving DecidableEq, Repr

/-- Frame table: per-frame function index and category. -/
structure FrameTable where
  func : List Nat
  category : List (Option Nat)
deriving DecidableEq, Repr

/-- Thread record: the tables and flags of a single profiled thread that the
selectors read.  jsAllocations and nativeAllocations are optional tables. -/
structure Thread where
  samples : SamplesTable
  jsAllocations : Option JsAllocationsTable
  nativeAllocations : Option NativeAllocationsTable
  isJsTracer : Bool
  stackTable : StackTable
  frameTable : FrameTable
deriving DecidableEq, Repr

/-- Start/end range of samples; the field "stop" models the JS field "end"
(a reserved word in Lean). -/
structure StartEndRange where
  start : Rat
  stop : Rat
deriving DecidableEq, Repr

/-- Selector unfilteredSamplesRange: null when the thread has no samples,
otherwise the range from the first sample time to the last sample time plus
the profile sampling interval. -/
def unfilteredSamplesRange (thread : Thread) (interval : Rat) :
    Option StartEndRange :=
  let time := thread.samples.time
  if time.length = 0 then
    none
  else
    some { start := time.getD 0 0
           stop := time.getD (time.length - 1) 0 + interval }

/-- Selector getCallTreeSummaryStrategy: validates the last selected strategy
against the thread capabilities, falling back to timing when the thread lacks
the needed allocation table. -/
def getCallTreeSummaryStrategy (thread : Thread)
    (lastSelectedCallTreeSummaryStrategy : CallTreeSummaryStrategy) :
    CallTreeSummaryStrategy :=
  match lastSelectedCallTreeSummaryStrategy with
  | .timing => lastSelectedCallTreeSummaryStrategy
  | .jsAllocations =>
      if thread.jsAllocations.isNone then
        CallTreeSummaryStrategy.timing
      else
        lastSelectedCallTreeSummaryStrategy
  | .nativeAllocations
  | .nativeRetainedAllocations
  | .nativeDeallocationsSites
  | .nativeDeallocationsMemory =>
      if thread.nativeAllocations.isNone then
        CallTreeSummaryStrategy.timing
      else
        lastSelectedCallTreeSummaryStrategy

/-- Error message of ensureExists for the js-allocations branch. -/
def jsAllocationsMissingMsg : String :=
  "Expected the NativeAllocationTable to exist when using a js-allocation strategy"

/-- Error message of ensureExists for the native-allocation branches. -/
def nativeAllocationsMissingMsg : String :=
  "Expected the NativeAllocationTable to exist when using a native-allocation strategy"

/-- Error message thrown when the memoryAddress column is missing. -/
def memoryAddressMissingMsg : String :=
  "Attempting to filter by retained allocations data that is missing the memory addresses."

/-- Utility ensureExists: returns the value when present, otherwise fails with
the supplied message (the source throws). -/
def ensureExists {α : Type} (item : Option α) (message : String) :
    Except String α :=
  match item with
  | some value => Except.ok value
  | none => Except.error message

/-- Row indices of a native allocations table. -/
def allocRowIndices (t : NativeAllocationsTable) : List Nat :=
  List.range t.weight.length

/-- Rebuild a native allocations table keeping only the rows whose indices
satisfy the given predicate. -/
def keepAllocRows (t : NativeAllocationsTable) (keep : Nat → Bool) :
    NativeAllocationsTable :=
  let kept := (allocRowIndices t).filter keep
  { stack := kept.map (fun i => t.stack.getD i 0)
    time := kept.map (fun i => t.time.getD i 0)
    weight := kept.map (fun i => t.weight.getD i 0)
    memoryAddress :=
      t.memoryAddress.map (fun addrs => kept.map (fun i => addrs.getD i 0)) }

/-- Modelled from the spec: ProfileData.filterToAllocations is not among the
sources; the spec says toAllocations keeps the rows with positive weight. -/
def filterToAllocations (t : NativeAllocationsTable) : NativeAllocationsTable :=
  keepAllocRows t (fun i => 0 < t.weight.getD i 0)

/-- Modelled from the spec: ProfileData.filterToDeallocationsSites is not among
the sources; the spec says toDeallocationSites keeps the rows with negative
weight, attributed to each row's own recorded stack. -/
def filterToDeallocationsSites (t : NativeAllocationsTable) :
    NativeAllocationsTable :=
  keepAllocRows t (fun i => t.weight.getD i 0 < 0)

/-- Modelled from the spec: ProfileData.filterToRetainedAllocations is not
among the sources; the spec says toRetainedAllocations pairs each allocation
with its subsequent deallocation at the same address and keeps the allocations
whose pairing is absent. -/
def filterToRetainedAllocations (t : NativeAllocationsTable) :
    NativeAllocationsTable :=
  let addrs := t.memoryAddress.getD []
  keepAllocRows t (fun i =>
    0 < t.weight.getD i 0 &&
      !((allocRowIndices t).any (fun j =>
        i < j && t.weight.getD j 0 < 0 && addrs.getD j 0 = addrs.getD i 0)))

/-- Modelled from the spec: ProfileData.filterToDeallocationsMemory is not
among the sources; the spec says toDeallocationsMemory keeps the deallocations
that pair with an earlier allocation at the same address, reported at the
deallocation's time and stack. -/
def filterToDeallocationsMemory (t : NativeAllocationsTable) :
    NativeAllocationsTable :=
  let addrs := t.memoryAddress.getD []
  keepAllocRows t (fun i =>
    t.weight.getD i 0 < 0 &&
      (allocRowIndices t).any (fun j =>
        j < i && 0 < t.weight.getD j 0 && addrs.getD j 0 = addrs.getD i 0))

/-- Result stream of getSamplesForCallTree: a samples table, a JS allocations
table, or a native allocations table. -/
inductive CallTreeSamples where
  | samples (t : SamplesTable)
  | jsAllocs (t : JsAllocationsTable)
  | nativeAllocs (t : NativeAllocationsTable)
deriving DecidableEq, Repr

/-- Selector getSamplesForCallTree: picks the sample stream that feeds the
call tree for the given strategy; throwing in the source is modelled with
Except.error. -/
def getSamplesForCallTree (thread : Thread)
    (strategy : CallTreeSummaryStrategy) : Except String CallTreeSamples :=
  match strategy with
  | .timing => Except.ok (CallTreeSamples.samples thread.samples)
  | .jsAllocations =>
      (ensureExists thread.jsAllocations jsAllocationsMissingMsg).map
        CallTreeSamples.jsAllocs
  | .nativeRetainedAllocations => do
      let nativeAllocations ←
        ensureExists thread.nativeAllocations nativeAllocationsMissingMsg
      if nativeAllocations.memoryAddress.isNone then
        Except.error memoryAddressMissingMsg
      else
        Except.ok
          (CallTreeSamples.nativeAllocs
            (filterToRetainedAllocations nativeAllocations))
  | .nativeAllocations =>
      (ensureExists thread.nativeAllocations nativeAllocationsMissingMsg).map
        (fun t => CallTreeSamples.nativeAllocs (filterToAllocations t))
  | .nativeDeallocationsSites =>
      (ensureExists thread.nativeAllocations nativeAllocationsMissingMsg).map
        (fun t => CallTreeSamples.nativeAllocs (filterToDeallocationsSites t))
  | .nativeDeallocationsMemory => do
      let nativeAllocations ←
        ensureExists thread.nativeAllocations nativeAllocationsMissingMsg
      if nativeAllocations.memoryAddress.isNone then
        Except.error memoryAddressMissingMsg
      else
        Except.ok
          (CallTreeSamples.nativeAllocs
            (filterToDeallocationsMemory nativeAllocations))

/-- Call-node table: per call node, its parent (the "prefix" column, none for
roots), function index, category and depth. -/
structure CallNodeTable where
  parent : List (Option Nat)
  func : List Nat
  category : List Nat
  depth : List Nat
deriving DecidableEq, Repr

/-- Builder state of the call-node table builder: the table built so far, the
lookup map keyed by (parent call node, func), and the stack-to-call-node
index for the stacks processed so far. -/
structure CNBuild where
  table : CallNodeTable
  keyToNode : List ((Option Nat × Nat) × Nat)
  stackToNode : List Nat
deriving DecidableEq, Repr

/-- Association lookup in the builder's key map. -/
def assocFind (key : Option Nat × Nat) :
    List ((Option Nat × Nat) × Nat) → Option Nat
  | [] => none
  | e :: rest => if e.1 = key then some e.2 else assocFind key rest

/-- Function index of the self frame of stack i. -/
def funcOfStack (st : StackTable) (ft : FrameTable) (i : Nat) : Nat :=
  ft.func.getD (st.frame.getD i 0) 0

/-- Lookup key of stack i in the builder state: the call node of the stack's
parent (none for root stacks) paired with the stack's function index. -/
def stackKey (st : StackTable) (ft : FrameTable) (b : CNBuild) (i : Nat) :
    Option Nat × Nat :=
  ((st.parent.getD i none).map (fun p => b.stackToNode.getD p 0),
    funcOfStack st ft i)

/-- Modelled from the spec: one step of the Call-Node Table Builder
(ProfileData.getCallNodeInfo is not among the sources).  For stack i, look up
an existing call node keyed by (parent call node, func); reuse it if present,
else allocate a new one with depth parentDepth plus one and the first-seen
category, then record the stack-to-call-node entry. -/
def buildStep (st : StackTable) (ft : FrameTable) (defaultCategory : Nat)
    (b : CNBuild) (i : Nat) : CNBuild :=
  match assocFind (stackKey st ft b i) b.keyToNode with
  | some n => { b with stackToNode := b.stackToNode ++ [n] }
  | none =>
      { table :=
          { parent := b.table.parent ++ [(stackKey st ft b i).1],
            func := b.table.func ++ [(stackKey st ft b i).2],
            category := b.table.category ++
              [(ft.category.getD (st.frame.getD i 0) none).getD defaultCategory],
            depth := b.table.depth ++
              [match (stackKey st ft b i).1 with
               | none => 0
               | some pn => b.table.depth.getD pn 0 + 1] },
        keyToNode := (stackKey st ft b i, b.table.func.length) :: b.keyToNode,
        stackToNode := b.stackToNode ++ [b.table.func.length] }

/-- Empty builder state. -/
def emptyBuild : CNBuild :=
  { table := { parent := [], func := [], category := [], depth := [] }
    keyToNode := []
    stackToNode := [] }

/-- Builder state after processing the first k stacks in table order. -/
def buildUpTo (st : StackTable) (ft : FrameTable) (defaultCategory : Nat)
    (k : Nat) : CNBuild :=
  (List.range k).foldl (buildStep st ft defaultCategory) emptyBuild

/-- Modelled from the spec: ProfileData.getCallNodeInfo walks all stacks in
table order (parents precede children) and produces the call-node table
together with the stack-to-call-node index. -/
def getCallNodeInfo (st : StackTable) (ft : FrameTable)
    (defaultCategory : Nat) : CNBuild :=
  buildUpTo st ft defaultCategory st.frame.length

/-- Final stack-to-call-node index entry for stack i. -/
def stackToCallNode (st : StackTable) (ft : FrameTable)
    (defaultCategory : Nat) (i : Nat) : Nat :=
  (getCallNodeInfo st ft defaultCategory).stackToNode.getD i 0

/-- Root-to-leaf label path of node i of a parent-linked forest, with
explicit fuel; when parents precede children the fuel i suffices. -/
def nodePathAux (parentCol : List (Option Nat)) (label : Nat → Nat) :
    Nat → Nat → List Nat
  | 0, i => [label i]
  | fuel + 1, i =>
      match parentCol.getD i none with
      | none => [label i]
      | some p => nodePathAux parentCol label fuel p ++ [label i]

/-- Root-to-leaf function-identity path of stack i. -/
def stackFuncPath (st : StackTable) (ft : FrameTable) (i : Nat) : List Nat :=
  nodePathAux st.parent (funcOfStack st ft) i i

/-- Well-formedness of a parent column: every recorded parent index is
smaller than its child index (parents precede children in table order). -/
def parentColWellFormed (parentCol : List (Option Nat)) : Bool :=
  (List.range parentCol.length).all (fun i =>
    match parentCol.getD i none with
    | none => true
    | some p => decide (p < i))

/-- Well-formedness of a stack table: columns agree in length and parents
precede children. -/
def StackTable.wellFormed (st : StackTable) : Bool :=
  st.frame.length == st.parent.length && parentColWellFormed st.parent

/-- Well-formedness of a call-node table: columns agree in length and parent
indices precede child indices. -/
def CallNodeTable.wellFormed (cn : CallNodeTable) : Bool :=
  cn.parent.length == cn.func.length && parentColWellFormed cn.parent

/-- Structural invariant of the call-node table: no two call nodes share the
same (parent, func) pair. -/
def CallNodeTable.uniqueKeys (cn : CallNodeTable) : Bool :=
  (List.range cn.func.length).all (fun m =>
    (List.range cn.func.length).all (fun m2 =>
      !(cn.parent.getD m none == cn.parent.getD m2 none &&
          cn.func.getD m 0 == cn.func.getD m2 0) ||
        m == m2))

/-- Modelled from the spec: the Call-Node Path Resolver's single descent step
(part of ProfileData.getCallNodeIndexFromPath, not among the sources): find
the call node whose parent is the current node and whose function identity is
the next path element. -/
def findChild (cn : CallNodeTable) (par : Option Nat) (f : Nat) : Option Nat :=
  (List.range cn.func.length).find? (fun m =>
    decide (cn.parent.getD m none = par ∧ cn.func.getD m 0 = f))

/-- Descent loop of the path resolver, carrying the current node (none means
the synthetic root). -/
def resolvePathFrom (cn : CallNodeTable) :
    Option Nat → List Nat → Option Nat
  | cur, [] => cur
  | cur, f :: rest =>
      match findChild cn cur f with
      | none => none
      | some n => resolvePathFrom cn (some n) rest

/-- Modelled from the spec: ProfileData.getCallNodeIndexFromPath is not among
the sources; the resolver descends from the synthetic root, at each step
selecting the child keyed by the next function identity, and returns none if
any step fails to match. -/
def getCallNodeIndexFromPath (callNodePath : List Nat) (cn : CallNodeTable) :
    Option Nat :=
  resolvePathFrom cn none callNodePath

/-- Root-to-node function-identity path of call node i. -/
def callNodePath (cn : CallNodeTable) (i : Nat) : List Nat :=
  nodePathAux cn.parent (fun j => cn.func.getD j 0) i i

/-- Path of the current descent position: empty at the synthetic root,
otherwise the current node's path. -/
def curPath (cn : CallNodeTable) : Option Nat → List Nat
  | none => []
  | some c => callNodePath cn c

/-- Selector getSelectedCallNodeIndex: resolves the selected call-node path
against the call-node table. -/
def getSelectedCallNodeIndex (cn : CallNodeTable)
    (selectedCallNodePath : List Nat) : Option Nat :=
  getCallNodeIndexFromPath selectedCallNodePath cn

/-- Selector getRightClickedCallNodeIndex: null when no call-node path was
right-clicked, otherwise the path resolved against the call-node table. -/
def getRightClickedCallNodeIndex (cn : CallNodeTable)
    (rightClickedCallNodePath : Option (List Nat)) : Option Nat :=
  match rightClickedCallNodePath with
  | none => none
  | some p => getCallNodeIndexFromPath p cn

/-- Ancestor chain of call node c (c itself, then its parent, up to the
root), with explicit fuel; under a well-formed parent column the fuel c
suffices. -/
def ancestorChainAux (parentCol : List (Option Nat)) : Nat → Nat → List Nat
  | 0, c => [c]
  | fuel + 1, c =>
      match parentCol.getD c none with
      | none => [c]
      | some p => c :: ancestorChainAux parentCol fuel p

/-- Ancestor chain of call node c: c itself, its parent, up to the root. -/
def ancestorChain (parentCol : List (Option Nat)) (c : Nat) : List Nat :=
  ancestorChainAux parentCol c c

/-- Contribution of one weighted row to the total weight of call node n: the
row's weight when its call node resolves and n is that node or one of its
ancestors, zero otherwise. -/
def rowContrib (parentCol : List (Option Nat)) (n : Nat)
    (row : Option Nat × Int) : Int :=
  match row.1 with
  | none => 0
  | some c =>
      if c < parentCol.length ∧ n ∈ ancestorChain parentCol c then row.2
      else 0

/-- Modelled from the spec: the Call Tree Aggregator (the relevant part of
CallTree.computeCallTreeCountsAndTimings, not among the sources) attributes
each resolvable row's weight to its call node and every ancestor up to the
root; rows with no resolvable call node are ignored. -/
def totalWeight (parentCol : List (Option Nat))
    (rows : List (Option Nat × Int)) (n : Nat) : Int :=
  (rows.map (rowContrib parentCol n)).sum

/-- Whether call node n is a root of the call-node table. -/
def isRootNode (parentCol : List (Option Nat)) (n : Nat) : Bool :=
  n < parentCol.length && (parentCol.getD n none).isNone

/-- Root call nodes of the call-node table, in index order. -/
def rootNodes (parentCol : List (Option Nat)) : List Nat :=
  (List.range parentCol.length).filter (isRootNode parentCol)

/-- Sum over root call nodes of totalWeight. -/
def rootTotalWeightSum (parentCol : List (Option Nat))
    (rows : List (Option Nat × Int)) : Int :=
  ((rootNodes parentCol).map (totalWeight parentCol rows)).sum

/-- Weight a row contributes to the bookkeeping total: its weight when its
call node resolves to a known call node, zero otherwise. -/
def resolvableWeight (parentCol : List (Option Nat))
    (row : Option Nat × Int) : Int :=
  match row.1 with
  | none => 0
  | some c => if c < parentCol.length then row.2 else 0

/-- Sum of the weights of all rows whose call node resolves. -/
def resolvableWeightSum (parentCol : List (Option Nat))
    (rows : List (Option Nat × Int)) : Int :=
  (rows.map (resolvableWeight parentCol)).sum

/-- Per-sample classification relative to a selection. -/
inductive SelectedState where
  | selected
  | unselectedBefore
  | unselectedAfter
  | filteredOutByTab
deriving DecidableEq, Repr

/-- Modelled from the spec: ProfileData.getSampleIndexToCallNodeIndex is not
among the sources; it maps each sample's stack, when present, through the
stack-to-call-node index. -/
def getSampleIndexToCallNodeIndex (sampleStacks : List (Option Nat))
    (stackIndexToCallNodeIndex : List Nat) : List (Option Nat) :=
  sampleStacks.map (fun s => s.map (fun idx => stackIndexToCallNodeIndex.getD idx 0))

/-- Modelled from the spec: one sample's classification by the Sample
Classifier (part of ProfileData.getSamplesSelectedStates, not among the
sources).  A sample absent from the tab-filtered variant is FilteredOutByTab;
else a sample whose call node equals or descends from the selection is
Selected; else it is unselected before or after per a fixed tree order, and
with no selection the classification is uniformly unselected. -/
def classifySample (parentCol : List (Option Nat)) (selected : Option Nat)
    (sampleNode tabNode : Option Nat) : SelectedState :=
  match tabNode with
  | none => SelectedState.filteredOutByTab
  | some _ =>
      match selected, sampleNode with
      | some sel, some c =>
          if sel ∈ ancestorChain parentCol c then SelectedState.selected
          else if c < sel then SelectedState.unselectedBefore
          else SelectedState.unselectedAfter
      | _, _ => SelectedState.unselectedBefore

/-- Modelled from the spec: ProfileData.getSamplesSelectedStates is not among
the sources; it classifies every sample index of the filtered thread. -/
def getSamplesSelectedStates (parentCol : List (Option Nat))
    (sampleNodes tabNodes : List (Option Nat)) (selected : Option Nat) :
    List SelectedState :=
  (List.range sampleNodes.length).map (fun i =>
    classifySample parentCol selected (sampleNodes.getD i none)
      (tabNodes.getD i none))

/-- Selector getSamplesSelectedStatesInFilteredThread: null for JS tracer
threads (too slow to compute there), otherwise the per-sample selected
states of the filtered thread against the tab-filtered thread. -/
def getSamplesSelectedStatesInFilteredThread (thread tabFilteredThread : Thread)
    (info : CNBuild) (selectedCallNode : Option Nat) :
    Option (List SelectedState) :=
  if thread.isJsTracer then
    none
  else
    let sampleIndexToCallNodeIndex :=
      getSampleIndexToCallNodeIndex thread.samples.stack info.stackToNode
    let activeTabFilteredCallNodeIndex :=
      getSampleIndexToCallNodeIndex tabFilteredThread.samples.stack
        info.stackToNode
    some (getSamplesSelectedStates info.table.parent
      sampleIndexToCallNodeIndex activeTabFilteredCallNodeIndex
      selectedCallNode)

/-- Memoization cell of a Derivation Graph node: the recorded input and
output of the last computation, when one happened. -/
structure MemoCell (α β : Type) where
  lastInput : Option (α × β)
deriving DecidableEq, Repr

/-- Result of reading a Derivation Graph node: the new cell state, the
output, and whether the wrapped function was recomputed. -/
structure ReadResult (α β : Type) where
  cell : MemoCell α β
  output : β
  recomputed : Bool
deriving DecidableEq, Repr

/-- Modelled from the spec: the Derivation Graph engine (the createSelector
memoization, not among the sources) compares the upstream value against the
one used in the last computation by identity; when they match it returns the
cached output unchanged, otherwise it recomputes and replaces the cache.
Identity of the immutable upstream values is modelled by equality of the
stored values. -/
def readCell {α β : Type} [DecidableEq α] (f : α → β) (c : MemoCell α β)
    (x : α) : ReadResult α β :=
  match c.lastInput with
  | some (x0, y0) =>
      if x = x0 then
        { cell := c, output := y0, recomputed := false }
      else
        { cell := { lastInput := some (x, f x) }, output := f x
          recomputed := true }
  | none =>
      { cell := { lastInput := some (x, f x) }, output := f x
        recomputed := true }

/-- Example frame table with three frames for functions 0, 1, 2. -/
def exFrameTable : FrameTable :=
  { func := [0, 1, 2], category := [none, none, none] }

/-- Example stack table with four stacks: A, A to B, A again, A to B again
(two distinct stack rows per function path). -/
def exStackTable : StackTable :=
  { frame := [0, 1, 0, 1], parent := [none, some 0, none, some 2] }

/-- Example samples table with two samples. -/
def exSamples : SamplesTable :=
  { stack := [none, none], time := [1, 5] }

/-- Example thread without allocation tables. -/
def exThread : Thread :=
  { samples := exSamples, jsAllocations := none, nativeAllocations := none,
    isJsTracer := false, stackTable := exStackTable,
    frameTable := exFrameTable }

/-- Example native allocations table lacking the memoryAddress column. -/
def exNativeAllocations : NativeAllocationsTable :=
  { stack := [0], time := [0], weight := [8], memoryAddress := none }

/-- Example thread whose native allocations table lacks memoryAddress. -/
def exThreadNative : Thread :=
  { exThread with nativeAllocations := some exNativeAllocations }

/-- Example JS tracer thread. -/
def exThreadTracer : Thread :=
  { exThread with isJsTracer := true }

/-- Example call-node table: a root A with two children B and C. -/
def exCallNodeTable : CallNodeTable :=
  { parent := [none, some 0, some 0], func := [0, 1, 2],
    category := [7, 7, 7], depth := [0, 1, 1] }

/-! ### Helper lemmas -/

/-- Appending one element and reading at the old length yields that element. -/
theorem getD_append_length {α : Type} (l : List α) (x d : α) :
    (l ++ [x]).getD l.length d = x := by
  rw [List.getD_append_right l [x] d l.length (Nat.le_refl _)]
  simp

/-- Reading at the last position is getLastD. -/
theorem getD_length_sub_one (l : List Rat) (d : Rat) :
    l.getD (l.length - 1) d = l.getLastD d := by
  induction l with
  | nil => rfl
  | cons a as ih =>
      cases as with
      | nil => rfl
      | cons b t =>
          have hlen : (a :: b :: t).length - 1 = (b :: t).length - 1 + 1 := by
            simp
          rw [hlen, List.getD_cons_succ, ih]
          simp [List.getLastD_cons]

/-! ### C1 summary strategy -/

/-- C1: for every thread and last-chosen strategy, the effective strategy
equals the last-chosen one when it is timing, when it is js-allocations and
the thread has a JS allocations table, or when it is one of the four
native-allocation strategies and the thread has a native allocations table;
in every other case the result is timing. -/
theorem getCallTreeSummaryStrategy_characterization (thread : Thread)
    (last : CallTreeSummaryStrategy) :
    getCallTreeSummaryStrategy thread last =
      if last = CallTreeSummaryStrategy.timing ∨
          (last = CallTreeSummaryStrategy.jsAllocations ∧
            thread.jsAllocations.isSome = true) ∨
          ((last = CallTreeSummaryStrategy.nativeAllocations ∨
              last = CallTreeSummaryStrategy.nativeRetainedAllocations ∨
              last = CallTreeSummaryStrategy.nativeDeallocationsSites ∨
              last = CallTreeSummaryStrategy.nativeDeallocationsMemory) ∧
            thread.nativeAllocations.isSome = true)
        then last
        else CallTreeSummaryStrategy.timing := by
  cases last <;>
    cases hj : thread.jsAllocations <;>
    cases hn : thread.nativeAllocations <;>
      simp [getCallTreeSummaryStrategy, hj, hn]

/-! ### C2 missing memoryAddress column -/

/-- C2: for every thread whose native allocations table is present but lacks
the memoryAddress column, selecting the sample stream under the
native-retained-allocations or native-deallocations-memory strategy fails
with the descriptive error rather than falling back to another stream. -/
theorem getSamplesForCallTree_missingMemoryAddress_errors (thread : Thread)
    (t : NativeAllocationsTable) (strategy : CallTreeSummaryStrategy)
    (hna : thread.nativeAllocations = some t)
    (haddr : t.memoryAddress = none)
    (hs : strategy = CallTreeSummaryStrategy.nativeRetainedAllocations ∨
      strategy = CallTreeSummaryStrategy.nativeDeallocationsMemory) :
    getSamplesForCallTree thread strategy =
      Except.error memoryAddressMissingMsg := by
  rcases hs with h | h <;> subst h <;>
    simp [getSamplesForCallTree, ensureExists, hna, haddr, Bind.bind,
      Except.bind]

/-- Witness for C2 at a concrete thread whose native allocations table lacks
the memoryAddress column. -/
theorem getSamplesForCallTree_missingMemoryAddress_errors_witness :
    getSamplesForCallTree exThreadNative
        CallTreeSummaryStrategy.nativeRetainedAllocations =
      Except.error memoryAddressMissingMsg :=
  getSamplesForCallTree_missingMemoryAddress_errors exThreadNative
    exNativeAllocations CallTreeSummaryStrategy.nativeRetainedAllocations
    rfl rfl (Or.inl rfl)

/-! ### C9 unfiltered samples range -/

/-- C9: unfilteredSamplesRange returns none exactly when the thread's sample
time array is empty; otherwise it returns the range from the first sample
time to the last sample time plus the profile sampling interval. -/
theorem unfilteredSamplesRange_characterization (thread : Thread)
    (interval : Rat) :
    (unfilteredSamplesRange thread interval = none ↔
      thread.samples.time = []) ∧
    (thread.samples.time ≠ [] →
      unfilteredSamplesRange thread interval =
        some { start := thread.samples.time.headD 0,
               stop := thread.samples.time.getLastD 0 + interval }) := by
  constructor
  · cases h : thread.samples.time with
    | nil => simp [unfilteredSamplesRange, h]
    | cons a as => simp [unfilteredSamplesRange, h]
  · intro hne
    cases h : thread.samples.time with
    | nil => exact absurd h hne
    | cons a as =>
        have hlen : (a :: as).length ≠ 0 := by simp
        simp only [unfilteredSamplesRange, h, if_neg hlen]
        rw [getD_length_sub_one]
        rfl

/-- Witness for C9 at a concrete thread with sample times 1 and 5 and
interval 2. -/
theorem unfilteredSamplesRange_characterization_witness :
    unfilteredSamplesRange exThread 2 =
      some { start := 1, stop := 7 } := by
  have h := (unfilteredSamplesRange_characterization exThread 2).2 (by decide)
  rw [h]
  simp [exThread, exSamples]
  norm_num

/-! ### C10 right-clicked call node -/

/-- C10: getRightClickedCallNodeIndex returns none for a null right-clicked
path regardless of the call-node table, and performs the path lookup exactly
when the path is non-null. -/
theorem getRightClickedCallNodeIndex_characterization :
    (∀ cn : CallNodeTable, getRightClickedCallNodeIndex cn none = none) ∧
    (∀ (cn : CallNodeTable) (p : List Nat),
      getRightClickedCallNodeIndex cn (some p) =
        getCallNodeIndexFromPath p cn) :=
  ⟨fun _ => rfl, fun _ _ => rfl⟩

/-! ### C7 JS tracer threads -/

/-- C7: for every thread flagged as a JS tracer thread, the per-sample
selected-states accessor returns none rather than raising an error,
regardless of the selection. -/
theorem samplesSelectedStates_jsTracer_none (thread tabFilteredThread : Thread)
    (info : CNBuild) (selectedCallNode : Option Nat)
    (h : thread.isJsTracer = true) :
    getSamplesSelectedStatesInFilteredThread thread tabFilteredThread info
      selectedCallNode = none := by
  simp [getSamplesSelectedStatesInFilteredThread, h]

/-- Witness for C7 at a concrete JS tracer thread. -/
theorem samplesSelectedStates_jsTracer_none_witness :
    getSamplesSelectedStatesInFilteredThread exThreadTracer exThread
      emptyBuild (some 0) = none :=
  samplesSelectedStates_jsTracer_none exThreadTracer exThread emptyBuild
    (some 0) rfl

/-! ### C6 memoization -/

/-- After any read, the cell records the read input and the returned
output. -/
theorem readCell_lastInput {α β : Type} [DecidableEq α] (f : α → β)
    (c : MemoCell α β) (x : α) :
    (readCell f c x).cell.lastInput = some (x, (readCell f c x).output) := by
  unfold readCell
  cases h : c.lastInput with
  | none => rfl
  | some xy =>
      obtain ⟨x0, y0⟩ := xy
      by_cases hx : x = x0
      · subst hx
        simp [h]
      · simp [h, hx]

/-- Reading a cell whose recorded input matches returns the cached output
and the unchanged cell, without recomputing. -/
theorem readCell_cached {α β : Type} [DecidableEq α] (f : α → β)
    (cell : MemoCell α β) (x : α) (y : β)
    (h : cell.lastInput = some (x, y)) :
    readCell f cell x = { cell := cell, output := y, recomputed := false } := by
  unfold readCell
  rw [h]
  simp

/-- Reading a cell whose recorded input differs from the read input
recomputes. -/
theorem readCell_changed {α β : Type} [DecidableEq α] (f : α → β)
    (cell : MemoCell α β) (x : α) (y : β) (x2 : α)
    (h : cell.lastInput = some (x, y)) (hne : x2 ≠ x) :
    (readCell f cell x2).recomputed = true := by
  unfold readCell
  rw [h]
  simp [hne]

/-- C6: reading an accessor twice with unchanged input returns the same
cached cell and output without recomputation, and a changed input identity
causes exactly one recomputation (the read after the change recomputes, the
next one is cached again). -/
theorem readCell_memoization {α β : Type} [DecidableEq α] (f : α → β)
    (c : MemoCell α β) (x x2 : α) (hne : x2 ≠ x) :
    (readCell f (readCell f c x).cell x =
      { cell := (readCell f c x).cell,
        output := (readCell f c x).output, recomputed := false }) ∧
    ((readCell f (readCell f c x).cell x2).recomputed = true) ∧
    (readCell f (readCell f (readCell f c x).cell x2).cell x2 =
      { cell := (readCell f (readCell f c x).cell x2).cell,
        output := (readCell f (readCell f c x).cell x2).output,
        recomputed := false }) := by
  exact ⟨readCell_cached f _ x _ (readCell_lastInput f c x),
    readCell_changed f _ x _ x2 (readCell_lastInput f c x) hne,
    readCell_cached f _ x2 _ (readCell_lastInput f _ x2)⟩

/-- Witness for C6 with a concrete function and cell. -/
theorem readCell_memoization_witness :
    ((readCell Nat.succ (readCell Nat.succ (MemoCell.mk none) 0).cell 0 =
      { cell := (readCell Nat.succ (MemoCell.mk none) 0).cell,
        output := (readCell Nat.succ (MemoCell.mk none) 0).output,
        recomputed := false }) ∧
    ((readCell Nat.succ (readCell Nat.succ (MemoCell.mk none) 0).cell 1).recomputed = true) ∧
    (readCell Nat.succ
        (readCell Nat.succ (readCell Nat.succ (MemoCell.mk none) 0).cell 1).cell 1 =
      { cell := (readCell Nat.succ (readCell Nat.succ (MemoCell.mk none) 0).cell 1).cell,
        output := (readCell Nat.succ (readCell Nat.succ (MemoCell.mk none) 0).cell 1).output,
        recomputed := false })) :=
  readCell_memoization Nat.succ (MemoCell.mk none) 0 1 (by decide)

/-! ### Parent-column well-formedness -/

/-- Extracting the parent bound from a well-formed parent column. -/
theorem parentCol_lt {pc : List (Option Nat)}
    (hp : parentColWellFormed pc = true) {i p : Nat}
    (h : pc.getD i none = some p) : p < i := by
  by_cases hi : i < pc.length
  · unfold parentColWellFormed at hp
    have hall := List.all_eq_true.mp hp i (List.mem_range.mpr hi)
    rw [h] at hall
    exact of_decide_eq_true hall
  · rw [List.getD_eq_default _ _ (Nat.le_of_not_lt hi)] at h
    cases h

/-- Well-formed stack tables have well-formed parent columns. -/
theorem stackTable_wellFormed_parentCol {st : StackTable}
    (h : st.wellFormed = true) : parentColWellFormed st.parent = true :=
  ((Bool.and_eq_true _ _).mp h).2

/-- Well-formed call-node tables have well-formed parent columns. -/
theorem callNodeTable_wellFormed_parentCol {cn : CallNodeTable}
    (h : cn.wellFormed = true) : parentColWellFormed cn.parent = true :=
  ((Bool.and_eq_true _ _).mp h).2

/-! ### Node paths -/

/-- Evaluation of nodePathAux at fuel zero. -/
theorem nodePathAux_zero (pc : List (Option Nat)) (label : Nat → Nat)
    (i : Nat) : nodePathAux pc label 0 i = [label i] := rfl

/-- Evaluation of nodePathAux at successor fuel for a root. -/
theorem nodePathAux_succ_none {pc : List (Option Nat)} {label : Nat → Nat}
    {fuel i : Nat} (h : pc.getD i none = none) :
    nodePathAux pc label (fuel + 1) i = [label i] := by
  unfold nodePathAux
  rw [h]

/-- Evaluation of nodePathAux at successor fuel for a non-root. -/
theorem nodePathAux_succ_some {pc : List (Option Nat)} {label : Nat → Nat}
    {fuel i p : Nat} (h : pc.getD i none = some p) :
    nodePathAux pc label (fuel + 1) i =
      nodePathAux pc label fuel p ++ [label i] := by
  conv_lhs => rw [nodePathAux]
  rw [h]

/-- Node paths are never empty. -/
theorem nodePathAux_ne_nil (pc : List (Option Nat)) (label : Nat → Nat) :
    ∀ fuel i, nodePathAux pc label fuel i ≠ [] := by
  intro fuel i
  cases fuel with
  | zero => simp [nodePathAux_zero]
  | succ f =>
      cases h : pc.getD i none with
      | none => rw [nodePathAux_succ_none h]; simp
      | some p => rw [nodePathAux_succ_some h]; simp

/-- With enough fuel, nodePathAux does not depend on the fuel. -/
theorem nodePathAux_congr {pc : List (Option Nat)}
    (hp : parentColWellFormed pc = true) (label : Nat → Nat) :
    ∀ i f1 f2, i ≤ f1 → i ≤ f2 →
      nodePathAux pc label f1 i = nodePathAux pc label f2 i := by
  intro i
  induction i using Nat.strong_induction_on with
  | _ i ih =>
      intro f1 f2 hf1 hf2
      cases f1 with
      | zero =>
          have hi : i = 0 := Nat.le_zero.mp hf1
          subst hi
          cases f2 with
          | zero => rfl
          | succ g2 =>
              cases h : pc.getD 0 none with
              | none => rw [nodePathAux_succ_none h, nodePathAux_zero]
              | some p => exact absurd (parentCol_lt hp h) (Nat.not_lt_zero p)
      | succ g1 =>
          cases f2 with
          | zero =>
              have hi : i = 0 := Nat.le_zero.mp hf2
              subst hi
              cases h : pc.getD 0 none with
              | none => rw [nodePathAux_succ_none h, nodePathAux_zero]
              | some p => exact absurd (parentCol_lt hp h) (Nat.not_lt_zero p)
          | succ g2 =>
              cases h : pc.getD i none with
              | none => rw [nodePathAux_succ_none h, nodePathAux_succ_none h]
              | some p =>
                  have hpi : p < i := parentCol_lt hp h
                  rw [nodePathAux_succ_some h, nodePathAux_succ_some h]
                  congr 1
                  exact ih p hpi g1 g2 (Nat.le_of_lt_succ
                    (Nat.lt_of_lt_of_le hpi hf1)) (Nat.le_of_lt_succ
                    (Nat.lt_of_lt_of_le hpi hf2))

/-- Unfolding a node path at a root node. -/
theorem nodePath_root {pc : List (Option Nat)} (label : Nat → Nat) {i : Nat}
    (h : pc.getD i none = none) :
    nodePathAux pc label i i = [label i] := by
  cases i with
  | zero => rfl
  | succ m => exact nodePathAux_succ_none h

/-- Unfolding a node path at a non-root node. -/
theorem nodePath_cons {pc : List (Option Nat)}
    (hp : parentColWellFormed pc = true) (label : Nat → Nat) {i p : Nat}
    (h : pc.getD i none = some p) :
    nodePathAux pc label i i = nodePathAux pc label p p ++ [label i] := by
  have hpi : p < i := parentCol_lt hp h
  cases i with
  | zero => exact absurd hpi (Nat.not_lt_zero p)
  | succ m =>
      rw [nodePathAux_succ_some h]
      congr 1
      exact nodePathAux_congr hp label p m p (Nat.le_of_lt_succ hpi)
        (Nat.le_refl p)

/-- Splitting equal lists that both end in a singleton. -/
theorem append_singleton_inj {l1 l2 : List Nat} {a b : Nat}
    (h : l1 ++ [a] = l2 ++ [b]) : l1 = l2 ∧ a = b := by
  have hr := congrArg List.reverse h
  simp only [List.reverse_append, List.reverse_cons, List.reverse_nil,
    List.nil_append, List.singleton_append] at hr
  injection hr with hab hlr
  exact ⟨List.reverse_inj.mp hlr, hab⟩

/-! ### Builder evolution -/

/-- Unfolding one step of the builder fold. -/
theorem buildUpTo_succ (st : StackTable) (ft : FrameTable) (dc k : Nat) :
    buildUpTo st ft dc (k + 1) =
      buildStep st ft dc (buildUpTo st ft dc k) k := by
  unfold buildUpTo
  rw [List.range_succ, List.foldl_append]
  rfl

/-- Each builder step appends exactly one stack-to-call-node entry. -/
theorem buildStep_stackToNode (st : StackTable) (ft : FrameTable) (dc : Nat)
    (b : CNBuild) (i : Nat) :
    ∃ v, (buildStep st ft dc b i).stackToNode = b.stackToNode ++ [v] := by
  unfold buildStep
  cases h : assocFind (stackKey st ft b i) b.keyToNode with
  | some n => exact ⟨n, rfl⟩
  | none => exact ⟨b.table.func.length, rfl⟩

/-- After k steps the stack-to-call-node index has k entries. -/
theorem stackToNode_length (st : StackTable) (ft : FrameTable) (dc : Nat) :
    ∀ k, (buildUpTo st ft dc k).stackToNode.length = k := by
  intro k
  induction k with
  | zero => rfl
  | succ k ih =>
      rw [buildUpTo_succ]
      obtain ⟨v, hv⟩ := buildStep_stackToNode st ft dc (buildUpTo st ft dc k) k
      rw [hv]
      simp [ih]

/-- Recorded stack-to-call-node entries never change in later steps. -/
theorem stackToNode_stable (st : StackTable) (ft : FrameTable) (dc : Nat)
    {k k' : Nat} (hkk : k ≤ k') :
    ∀ i, i < k → (buildUpTo st ft dc k').stackToNode.getD i 0 =
      (buildUpTo st ft dc k).stackToNode.getD i 0 := by
  induction k', hkk using Nat.le_induction with
  | base => intro i _; rfl
  | succ m hm ih =>
      intro i hi
      rw [buildUpTo_succ]
      obtain ⟨v, hv⟩ := buildStep_stackToNode st ft dc (buildUpTo st ft dc m) m
      rw [hv, List.getD_append]
      · exact ih i hi
      · rw [stackToNode_length]
        exact Nat.lt_of_lt_of_le hi hm

/-- Unfolding assocFind over a cons cell. -/
theorem assocFind_cons (key : Option Nat × Nat)
    (e : (Option Nat × Nat) × Nat) (rest : List ((Option Nat × Nat) × Nat)) :
    assocFind key (e :: rest) =
      if e.1 = key then some e.2 else assocFind key rest := rfl

/-- A key found in the builder map stays bound to the same node. -/
theorem assocFind_buildStep (st : StackTable) (ft : FrameTable) (dc : Nat)
    (b : CNBuild) (i : Nat) (key : Option Nat × Nat) (v : Nat)
    (h : assocFind key b.keyToNode = some v) :
    assocFind key (buildStep st ft dc b i).keyToNode = some v := by
  unfold buildStep
  cases hk : assocFind (stackKey st ft b i) b.keyToNode with
  | some n => exact h
  | none =>
      show assocFind key
        ((stackKey st ft b i, b.table.func.length) :: b.keyToNode) = some v
      rw [assocFind_cons]
      by_cases he : stackKey st ft b i = key
      · rw [he] at hk
        rw [hk] at h
        cases h
      · rw [if_neg he]
        exact h

/-- Monotonicity of the builder's key map across steps. -/
theorem assocFind_mono (st : StackTable) (ft : FrameTable) (dc : Nat)
    {k k' : Nat} (hkk : k ≤ k') (key : Option Nat × Nat) (v : Nat)
    (h : assocFind key (buildUpTo st ft dc k).keyToNode = some v) :
    assocFind key (buildUpTo st ft dc k').keyToNode = some v := by
  induction k', hkk using Nat.le_induction with
  | base => exact h
  | succ m hm ih =>
      rw [buildUpTo_succ]
      exact assocFind_buildStep st ft dc (buildUpTo st ft dc m) m key v ih

/-- After processing stack k its key is bound to its recorded call node. -/
theorem buildStep_establishes (st : StackTable) (ft : FrameTable)
    (dc k : Nat) :
    assocFind (stackKey st ft (buildUpTo st ft dc k) k)
        (buildUpTo st ft dc (k + 1)).keyToNode =
      some ((buildUpTo st ft dc (k + 1)).stackToNode.getD k 0) := by
  have hlen : (buildUpTo st ft dc k).stackToNode.length = k :=
    stackToNode_length st ft dc k
  rw [buildUpTo_succ]
  unfold buildStep
  cases hk : assocFind (stackKey st ft (buildUpTo st ft dc k) k)
      (buildUpTo st ft dc k).keyToNode with
  | some n =>
      show assocFind (stackKey st ft (buildUpTo st ft dc k) k)
          (buildUpTo st ft dc k).keyToNode =
        some (((buildUpTo st ft dc k).stackToNode ++ [n]).getD k 0)
      have hgetD := getD_append_length (buildUpTo st ft dc k).stackToNode n 0
      rw [hlen] at hgetD
      rw [hgetD]
      exact hk
  | none =>
      show assocFind (stackKey st ft (buildUpTo st ft dc k) k)
          ((stackKey st ft (buildUpTo st ft dc k) k,
              (buildUpTo st ft dc k).table.func.length) ::
            (buildUpTo st ft dc k).keyToNode) =
        some (((buildUpTo st ft dc k).stackToNode ++
            [(buildUpTo st ft dc k).table.func.length]).getD k 0)
      have hgetD := getD_append_length (buildUpTo st ft dc k).stackToNode
        (buildUpTo st ft dc k).table.func.length 0
      rw [hlen] at hgetD
      rw [hgetD, assocFind_cons, if_pos rfl]

/-- The final key map binds every processed stack's final key (parent's
final call node and its own function) to its final call node. -/
theorem assocFind_final (st : StackTable) (ft : FrameTable) (dc : Nat)
    (hp : parentColWellFormed st.parent = true) (i : Nat)
    (hi : i < st.frame.length) :
    assocFind
      ((st.parent.getD i none).map (fun p => stackToCallNode st ft dc p),
        funcOfStack st ft i)
      (getCallNodeInfo st ft dc).keyToNode =
    some (stackToCallNode st ft dc i) := by
  have hkey : stackKey st ft (buildUpTo st ft dc i) i =
      ((st.parent.getD i none).map (fun p => stackToCallNode st ft dc p),
        funcOfStack st ft i) := by
    unfold stackKey
    cases hpar : st.parent.getD i none with
    | none => rfl
    | some p =>
        have hpi : p < i := parentCol_lt hp hpar
        simp only [Option.map_some']
        unfold stackToCallNode getCallNodeInfo
        rw [stackToNode_stable st ft dc (Nat.le_of_lt hi) p hpi]
  have hstep := buildStep_establishes st ft dc i
  rw [hkey] at hstep
  have hmono := assocFind_mono st ft dc (Nat.succ_le_of_lt hi) _ _ hstep
  unfold stackToCallNode getCallNodeInfo
  rw [stackToNode_stable st ft dc (Nat.succ_le_of_lt hi) i (Nat.lt_succ_self i)]
  exact hmono

/-- Strong-induction core of C3: stacks with equal function paths get equal
call nodes. -/
theorem stackToCallNode_congr_aux (st : StackTable) (ft : FrameTable)
    (dc : Nat) (hwf : st.wellFormed = true) :
    ∀ m s1 s2, s1 + s2 ≤ m → s1 < st.frame.length → s2 < st.frame.length →
      stackFuncPath st ft s1 = stackFuncPath st ft s2 →
      stackToCallNode st ft dc s1 = stackToCallNode st ft dc s2 := by
  have hp : parentColWellFormed st.parent = true :=
    stackTable_wellFormed_parentCol hwf
  intro m
  induction m with
  | zero =>
      intro s1 s2 hm _ _ _
      have h1 : s1 = 0 := by omega
      have h2 : s2 = 0 := by omega
      rw [h1, h2]
  | succ m ih =>
      intro s1 s2 hm h1 h2 hpath
      unfold stackFuncPath at hpath
      cases hpar1 : st.parent.getD s1 none with
      | none =>
          cases hpar2 : st.parent.getD s2 none with
          | none =>
              rw [nodePath_root _ hpar1, nodePath_root _ hpar2] at hpath
              have hF : funcOfStack st ft s1 = funcOfStack st ft s2 := by
                injection hpath
              have k1 := assocFind_final st ft dc hp s1 h1
              have k2 := assocFind_final st ft dc hp s2 h2
              rw [hpar1] at k1
              rw [hpar2] at k2
              simp only [Option.map_none'] at k1 k2
              rw [hF] at k1
              exact (Option.some.inj (k2.symm.trans k1)).symm
          | some p2 =>
              rw [nodePath_root _ hpar1, nodePath_cons hp _ hpar2] at hpath
              have hlen := congrArg List.length hpath
              simp [List.length_append] at hlen
              exact absurd hlen
                (nodePathAux_ne_nil st.parent (funcOfStack st ft) p2 p2)
      | some p1 =>
          cases hpar2 : st.parent.getD s2 none with
          | none =>
              rw [nodePath_cons hp _ hpar1, nodePath_root _ hpar2] at hpath
              have hlen := congrArg List.length hpath
              simp [List.length_append] at hlen
              exact absurd hlen
                (nodePathAux_ne_nil st.parent (funcOfStack st ft) p1 p1)
          | some p2 =>
              rw [nodePath_cons hp _ hpar1, nodePath_cons hp _ hpar2] at hpath
              obtain ⟨hsub, hF⟩ := append_singleton_inj hpath
              have hpi1 : p1 < s1 := parentCol_lt hp hpar1
              have hpi2 : p2 < s2 := parentCol_lt hp hpar2
              have hN := ih p1 p2 (by omega) (Nat.lt_trans hpi1 h1)
                (Nat.lt_trans hpi2 h2) hsub
              have k1 := assocFind_final st ft dc hp s1 h1
              have k2 := assocFind_final st ft dc hp s2 h2
              rw [hpar1] at k1
              rw [hpar2] at k2
              simp only [Option.map_some'] at k1 k2
              rw [hN, hF] at k1
              exact (Option.some.inj (k2.symm.trans k1)).symm

/-- C3: for all stacks with identical root-to-leaf function-identity paths,
the builder's stack-to-call-node index maps them to the same call node. -/
theorem stackToCallNode_path_congruence (st : StackTable) (ft : FrameTable)
    (dc : Nat) (hwf : st.wellFormed = true) (s1 s2 : Nat)
    (h1 : s1 < st.frame.length) (h2 : s2 < st.frame.length)
    (hpath : stackFuncPath st ft s1 = stackFuncPath st ft s2) :
    stackToCallNode st ft dc s1 = stackToCallNode st ft dc s2 :=
  stackToCallNode_congr_aux st ft dc hwf (s1 + s2) s1 s2 (Nat.le_refl _)
    h1 h2 hpath

/-- Witness for C3 on a concrete stack table where stacks 1 and 3 share the
function path. -/
theorem stackToCallNode_path_congruence_witness :
    stackToCallNode exStackTable exFrameTable 7 1 =
      stackToCallNode exStackTable exFrameTable 7 3 :=
  stackToCallNode_path_congruence exStackTable exFrameTable 7 (by decide)
    1 3 (by decide) (by decide) (by decide)

/-! ### Ancestor chains -/

/-- Evaluation of ancestorChainAux at fuel zero. -/
theorem ancestorChainAux_zero (pc : List (Option Nat)) (c : Nat) :
    ancestorChainAux pc 0 c = [c] := rfl

/-- Evaluation of ancestorChainAux at successor fuel for a root. -/
theorem ancestorChainAux_succ_none {pc : List (Option Nat)} {fuel c : Nat}
    (h : pc.getD c none = none) :
    ancestorChainAux pc (fuel + 1) c = [c] := by
  conv_lhs => rw [ancestorChainAux]
  rw [h]

/-- Evaluation of ancestorChainAux at successor fuel for a non-root. -/
theorem ancestorChainAux_succ_some {pc : List (Option Nat)} {fuel c p : Nat}
    (h : pc.getD c none = some p) :
    ancestorChainAux pc (fuel + 1) c = c :: ancestorChainAux pc fuel p := by
  conv_lhs => rw [ancestorChainAux]
  rw [h]

/-- With enough fuel, ancestorChainAux does not depend on the fuel. -/
theorem ancestorChainAux_congr {pc : List (Option Nat)}
    (hp : parentColWellFormed pc = true) :
    ∀ c f1 f2, c ≤ f1 → c ≤ f2 →
      ancestorChainAux pc f1 c = ancestorChainAux pc f2 c := by
  intro c
  induction c using Nat.strong_induction_on with
  | _ c ih =>
      intro f1 f2 hf1 hf2
      cases f1 with
      | zero =>
          have hc : c = 0 := Nat.le_zero.mp hf1
          subst hc
          cases f2 with
          | zero => rfl
          | succ g2 =>
              cases h : pc.getD 0 none with
              | none => rw [ancestorChainAux_succ_none h, ancestorChainAux_zero]
              | some p => exact absurd (parentCol_lt hp h) (Nat.not_lt_zero p)
      | succ g1 =>
          cases f2 with
          | zero =>
              have hc : c = 0 := Nat.le_zero.mp hf2
              subst hc
              cases h : pc.getD 0 none with
              | none => rw [ancestorChainAux_succ_none h, ancestorChainAux_zero]
              | some p => exact absurd (parentCol_lt hp h) (Nat.not_lt_zero p)
          | succ g2 =>
              cases h : pc.getD c none with
              | none =>
                  rw [ancestorChainAux_succ_none h, ancestorChainAux_succ_none h]
              | some p =>
                  have hpc : p < c := parentCol_lt hp h
                  rw [ancestorChainAux_succ_some h, ancestorChainAux_succ_some h]
                  congr 1
                  exact ih p hpc g1 g2 (Nat.le_of_lt_succ
                    (Nat.lt_of_lt_of_le hpc hf1)) (Nat.le_of_lt_succ
                    (Nat.lt_of_lt_of_le hpc hf2))

/-- Unfolding the ancestor chain at a root node. -/
theorem ancestorChain_root {pc : List (Option Nat)} {c : Nat}
    (h : pc.getD c none = none) : ancestorChain pc c = [c] := by
  unfold ancestorChain
  cases c with
  | zero => rfl
  | succ m => exact ancestorChainAux_succ_none h

/-- Unfolding the ancestor chain at a non-root node. -/
theorem ancestorChain_cons {pc : List (Option Nat)}
    (hp : parentColWellFormed pc = true) {c p : Nat}
    (h : pc.getD c none = some p) :
    ancestorChain pc c = c :: ancestorChain pc p := by
  have hpc : p < c := parentCol_lt hp h
  unfold ancestorChain
  cases c with
  | zero => exact absurd hpc (Nat.not_lt_zero p)
  | succ m =>
      rw [ancestorChainAux_succ_some h]
      congr 1
      exact ancestorChainAux_congr hp p m p (Nat.le_of_lt_succ hpc)
        (Nat.le_refl p)

/-- Chain members never exceed the chain's starting node. -/
theorem ancestorChain_le {pc : List (Option Nat)}
    (hp : parentColWellFormed pc = true) :
    ∀ c x, x ∈ ancestorChain pc c → x ≤ c := by
  intro c
  induction c using Nat.strong_induction_on with
  | _ c ih =>
      intro x hx
      cases h : pc.getD c none with
      | none =>
          rw [ancestorChain_root h] at hx
          simp at hx
          omega
      | some p =>
          have hpc : p < c := parentCol_lt hp h
          rw [ancestorChain_cons hp h] at hx
          rcases List.mem_cons.mp hx with hxc | hxp
          · omega
          · exact Nat.le_of_lt (Nat.lt_of_le_of_lt (ih p hpc x hxp) hpc)

/-- Every known call node's ancestor chain contains exactly one root. -/
theorem ancestorChain_unique_root {pc : List (Option Nat)}
    (hp : parentColWellFormed pc = true) :
    ∀ c, c < pc.length →
      ∃ r, isRootNode pc r = true ∧ r ∈ ancestorChain pc c ∧
        ∀ x ∈ ancestorChain pc c, isRootNode pc x = true → x = r := by
  intro c
  induction c using Nat.strong_induction_on with
  | _ c ih =>
      intro hc
      cases h : pc.getD c none with
      | none =>
          refine ⟨c, ?_, ?_, ?_⟩
          · unfold isRootNode
            rw [h]
            simp [hc]
          · rw [ancestorChain_root h]
            simp
          · intro x hx _
            rw [ancestorChain_root h] at hx
            simpa using hx
      | some p =>
          have hpc : p < c := parentCol_lt hp h
          obtain ⟨r, hr, hrmem, hruniq⟩ := ih p hpc (Nat.lt_trans hpc hc)
          refine ⟨r, hr, ?_, ?_⟩
          · rw [ancestorChain_cons hp h]
            exact List.mem_cons_of_mem _ hrmem
          · intro x hx hxroot
            rw [ancestorChain_cons hp h] at hx
            rcases List.mem_cons.mp hx with hxc | hxp
            · subst hxc
              unfold isRootNode at hxroot
              rw [h] at hxroot
              simp at hxroot
            · exact hruniq x hxp hxroot

/-! ### Sum lemmas -/

/-- Mapping a pointwise-zero function sums to zero. -/
theorem sum_map_zeroInt (l : List Nat) (f : Nat → Int)
    (h : ∀ x ∈ l, f x = 0) : (l.map f).sum = 0 := by
  apply List.sum_eq_zero
  intro y hy
  obtain ⟨x, hx, rfl⟩ := List.mem_map.mp hy
  exact h x hx

/-- Summing a function that vanishes away from a single member of a
duplicate-free list gives its value there. -/
theorem sum_map_singleInt {l : List Nat} (hnd : l.Nodup) (f : Nat → Int)
    (r : Nat) (hmem : r ∈ l) (hzero : ∀ x ∈ l, x ≠ r → f x = 0) :
    (l.map f).sum = f r := by
  induction l with
  | nil => cases hmem
  | cons a t ih =>
      obtain ⟨hat, htnd⟩ := List.nodup_cons.mp hnd
      rw [List.map_cons, List.sum_cons]
      rcases List.mem_cons.mp hmem with hra | hrt
      · subst hra
        have hzt : (t.map f).sum = 0 := by
          apply sum_map_zeroInt
          intro x hx
          exact hzero x (List.mem_cons_of_mem _ hx) (fun hxr => hat (hxr ▸ hx))
        rw [hzt, add_zero]
      · have hfa : f a = 0 := by
          apply hzero a (List.mem_cons_self a t)
          intro har
          exact hat (har ▸ hrt)
        rw [hfa, zero_add]
        exact ih htnd hrt (fun x hx hxr => hzero x (List.mem_cons_of_mem _ hx) hxr)

/-- Summing a pointwise sum splits into two sums. -/
theorem sum_map_addInt (l : List Nat) (f g : Nat → Int) :
    (l.map (fun n => f n + g n)).sum = (l.map f).sum + (l.map g).sum := by
  induction l with
  | nil => simp
  | cons a t ih =>
      simp only [List.map_cons, List.sum_cons, ih]
      ring

/-! ### C4 aggregation -/

/-- Evaluation of rowContrib at an unresolvable row. -/
theorem rowContrib_none (pc : List (Option Nat)) (n : Nat) (w : Int) :
    rowContrib pc n (none, w) = 0 := rfl

/-- Evaluation of rowContrib at a resolvable row. -/
theorem rowContrib_some (pc : List (Option Nat)) (n c : Nat) (w : Int) :
    rowContrib pc n (some c, w) =
      if c < pc.length ∧ n ∈ ancestorChain pc c then w else 0 := rfl

/-- Evaluation of resolvableWeight at an unresolvable row. -/
theorem resolvableWeight_none (pc : List (Option Nat)) (w : Int) :
    resolvableWeight pc (none, w) = 0 := rfl

/-- Evaluation of resolvableWeight at a resolvable row. -/
theorem resolvableWeight_some (pc : List (Option Nat)) (c : Nat) (w : Int) :
    resolvableWeight pc (some c, w) = if c < pc.length then w else 0 := rfl

/-- Summed over the roots, a single row contributes its weight exactly when
its call node resolves. -/
theorem rootContrib_sum {pc : List (Option Nat)}
    (hp : parentColWellFormed pc = true) (row : Option Nat × Int) :
    ((rootNodes pc).map (fun n => rowContrib pc n row)).sum =
      resolvableWeight pc row := by
  obtain ⟨s, w⟩ := row
  cases s with
  | none =>
      have hz : ((rootNodes pc).map
          (fun n => rowContrib pc n (none, w))).sum = 0 :=
        sum_map_zeroInt _ _ (fun x _ => rfl)
      rw [hz]
      rfl
  | some c =>
      by_cases hc : c < pc.length
      · obtain ⟨r, hr, hrmem, hruniq⟩ := ancestorChain_unique_root hp c hc
        have hrl : r ∈ rootNodes pc := by
          unfold rootNodes
          rw [List.mem_filter]
          refine ⟨List.mem_range.mpr ?_, hr⟩
          unfold isRootNode at hr
          exact of_decide_eq_true ((Bool.and_eq_true _ _).mp hr).1
        have hnd : (rootNodes pc).Nodup :=
          List.Nodup.filter _ (List.nodup_range _)
        rw [sum_map_singleInt hnd _ r hrl ?zero]
        case zero =>
          intro x hxl hxr
          rw [rowContrib_some, if_neg]
          intro hcond
          exact hxr (hruniq x hcond.2
            (List.mem_filter.mp hxl).2)
        rw [rowContrib_some, resolvableWeight_some,
          if_pos ⟨hc, hrmem⟩, if_pos hc]
      · have hz : ((rootNodes pc).map
            (fun n => rowContrib pc n (some c, w))).sum = 0 := by
          apply sum_map_zeroInt
          intro x _
          rw [rowContrib_some, if_neg]
          intro hcond
          exact hc hcond.1
        rw [hz, resolvableWeight_some, if_neg hc]

/-- Total weights split off the first row. -/
theorem totalWeight_cons (pc : List (Option Nat)) (r : Option Nat × Int)
    (rows : List (Option Nat × Int)) (n : Nat) :
    totalWeight pc (r :: rows) n =
      rowContrib pc n r + totalWeight pc rows n := by
  unfold totalWeight
  rw [List.map_cons, List.sum_cons]

/-- C4: the sum over root call nodes of totalWeight equals the sum of the
weights of all rows whose call node resolves to a known call node; rows with
no resolvable call node contribute nothing. -/
theorem rootTotalWeightSum_eq_resolvableWeightSum (pc : List (Option Nat))
    (rows : List (Option Nat × Int))
    (hp : parentColWellFormed pc = true) :
    rootTotalWeightSum pc rows = resolvableWeightSum pc rows := by
  induction rows with
  | nil =>
      unfold rootTotalWeightSum resolvableWeightSum
      rw [sum_map_zeroInt (rootNodes pc) (totalWeight pc [])
        (fun x _ => rfl)]
      rfl
  | cons r rows ih =>
      unfold rootTotalWeightSum
      have hfun : totalWeight pc (r :: rows) =
          fun n => rowContrib pc n r + totalWeight pc rows n :=
        funext (fun n => totalWeight_cons pc r rows n)
      rw [hfun, sum_map_addInt, rootContrib_sum hp r]
      unfold rootTotalWeightSum at ih
      rw [ih]
      unfold resolvableWeightSum
      rw [List.map_cons, List.sum_cons]

/-- Witness for C4 on a concrete call-node parent column and row stream with
resolvable, unresolvable and out-of-range rows. -/
theorem rootTotalWeightSum_eq_resolvableWeightSum_witness :
    rootTotalWeightSum [none, some 0, some 0]
        [(some 1, 1), (some 1, 1), (some 2, 1), (none, 5), (some 99, 4)] =
      resolvableWeightSum [none, some 0, some 0]
        [(some 1, 1), (some 1, 1), (some 2, 1), (none, 5), (some 99, 4)] :=
  rootTotalWeightSum_eq_resolvableWeightSum [none, some 0, some 0]
    [(some 1, 1), (some 1, 1), (some 2, 1), (none, 5), (some 99, 4)]
    (by decide)

/-! ### C5 and C8 path resolver -/

/-- Unfolding the call-node path at a root call node. -/
theorem callNodePath_root (cn : CallNodeTable) {n : Nat}
    (h : cn.parent.getD n none = none) :
    callNodePath cn n = [cn.func.getD n 0] :=
  nodePath_root _ h

/-- Unfolding the call-node path at a non-root call node. -/
theorem callNodePath_cons (cn : CallNodeTable)
    (hp : parentColWellFormed cn.parent = true) {n p : Nat}
    (h : cn.parent.getD n none = some p) :
    callNodePath cn n = callNodePath cn p ++ [cn.func.getD n 0] :=
  nodePath_cons hp _ h

/-- Facts guaranteed by a successful child search. -/
theorem findChild_some {cn : CallNodeTable} {par : Option Nat} {f m : Nat}
    (h : findChild cn par f = some m) :
    m < cn.func.length ∧ cn.parent.getD m none = par ∧
      cn.func.getD m 0 = f := by
  have hmem := List.mem_of_find?_eq_some h
  have hpred := List.find?_some h
  exact ⟨List.mem_range.mp hmem, (of_decide_eq_true hpred).1,
    (of_decide_eq_true hpred).2⟩

/-- Unique-keys tables identify call nodes by their (parent, func) pair. -/
theorem uniqueKeys_eq {cn : CallNodeTable} (hu : cn.uniqueKeys = true)
    {m m2 : Nat} (hm : m < cn.func.length) (hm2 : m2 < cn.func.length)
    (hpar : cn.parent.getD m none = cn.parent.getD m2 none)
    (hf : cn.func.getD m 0 = cn.func.getD m2 0) : m = m2 := by
  unfold CallNodeTable.uniqueKeys at hu
  have h1 := List.all_eq_true.mp hu m (List.mem_range.mpr hm)
  have h2 := List.all_eq_true.mp h1 m2 (List.mem_range.mpr hm2)
  rw [hpar, hf] at h2
  simp at h2
  exact h2

/-- Under the unique-keys invariant, the child search finds exactly the call
node with the given parent and function. -/
theorem findChild_eq {cn : CallNodeTable} (hu : cn.uniqueKeys = true)
    {m : Nat} (hm : m < cn.func.length) (par : Option Nat) (f : Nat)
    (hpar : cn.parent.getD m none = par) (hf : cn.func.getD m 0 = f) :
    findChild cn par f = some m := by
  have hs : (findChild cn par f).isSome = true := by
    unfold findChild
    refine List.find?_isSome.mpr ⟨m, List.mem_range.mpr hm, ?_⟩
    rw [hpar, hf]
    exact decide_eq_true ⟨rfl, rfl⟩
  obtain ⟨v, hv⟩ := Option.isSome_iff_exists.mp hs
  obtain ⟨hvlen, hvpar, hvf⟩ := findChild_some hv
  have hvm : v = m := uniqueKeys_eq hu hvlen hm (by rw [hvpar, hpar])
    (by rw [hvf, hf])
  rw [hv, hvm]

/-- Evaluation of the descent loop on the empty path. -/
theorem resolvePathFrom_nil (cn : CallNodeTable) (cur : Option Nat) :
    resolvePathFrom cn cur [] = cur := rfl

/-- Evaluation of the descent loop on a non-empty path. -/
theorem resolvePathFrom_cons (cn : CallNodeTable) (cur : Option Nat)
    (f : Nat) (rest : List Nat) :
    resolvePathFrom cn cur (f :: rest) =
      match findChild cn cur f with
      | none => none
      | some n => resolvePathFrom cn (some n) rest := rfl

/-- Appending one step to a successful descent performs one child search. -/
theorem resolvePathFrom_append {cn : CallNodeTable} :
    ∀ (l : List Nat) (cur : Option Nat) (m : Nat),
      resolvePathFrom cn cur l = some m →
      ∀ f, resolvePathFrom cn cur (l ++ [f]) = findChild cn (some m) f := by
  intro l
  induction l with
  | nil =>
      intro cur m h f
      rw [resolvePathFrom_nil] at h
      subst h
      rw [List.nil_append, resolvePathFrom_cons]
      cases hf : findChild cn (some m) f with
      | none => rfl
      | some v => rfl
  | cons g rest ih =>
      intro cur m h f
      rw [resolvePathFrom_cons] at h
      rw [List.cons_append, resolvePathFrom_cons]
      cases hg : findChild cn cur g with
      | none =>
          rw [hg] at h
          simp at h
      | some v =>
          rw [hg] at h
          exact ih (some v) m h f

/-- C5: resolving the root-to-node function-identity path of any call node of
a well-formed call-node table with unique (parent, func) keys returns the
node itself. -/
theorem callNodePath_roundTrip (cn : CallNodeTable)
    (hwf : cn.wellFormed = true) (hu : cn.uniqueKeys = true) :
    ∀ n, n < cn.func.length →
      getCallNodeIndexFromPath (callNodePath cn n) cn = some n := by
  have hp : parentColWellFormed cn.parent = true :=
    callNodeTable_wellFormed_parentCol hwf
  intro n
  induction n using Nat.strong_induction_on with
  | _ n ih =>
      intro hn
      unfold getCallNodeIndexFromPath
      cases h : cn.parent.getD n none with
      | none =>
          rw [callNodePath_root cn h, resolvePathFrom_cons,
            findChild_eq hu hn none (cn.func.getD n 0) h rfl]
          rfl
      | some p =>
          have hpn : p < n := parentCol_lt hp h
          rw [callNodePath_cons cn hp h]
          have hres : resolvePathFrom cn none (callNodePath cn p) = some p :=
            ih p hpn (Nat.lt_trans hpn hn)
          rw [resolvePathFrom_append (callNodePath cn p) none p hres
            (cn.func.getD n 0)]
          exact findChild_eq hu hn (some p) (cn.func.getD n 0) h rfl

/-- Witness for C5 at a concrete call-node table and node. -/
theorem callNodePath_roundTrip_witness :
    getCallNodeIndexFromPath (callNodePath exCallNodeTable 2)
      exCallNodeTable = some 2 :=
  callNodePath_roundTrip exCallNodeTable (by decide) (by decide) 2
    (by decide)

/-- Soundness of the descent loop: any resolved index really carries the
descended path. -/
theorem resolvePathFrom_sound {cn : CallNodeTable}
    (hp : parentColWellFormed cn.parent = true) :
    ∀ (l : List Nat) (cur : Option Nat) (m : Nat),
      resolvePathFrom cn cur l = some m →
      (l = [] ∧ cur = some m) ∨
        (m < cn.func.length ∧
          callNodePath cn m = curPath cn cur ++ l) := by
  intro l
  induction l with
  | nil =>
      intro cur m h
      exact Or.inl ⟨rfl, h⟩
  | cons f rest ih =>
      intro cur m h
      rw [resolvePathFrom_cons] at h
      cases hf : findChild cn cur f with
      | none =>
          rw [hf] at h
          simp at h
      | some v =>
          rw [hf] at h
          obtain ⟨hvlen, hvpar, hvf⟩ := findChild_some hf
          have hvpath : callNodePath cn v = curPath cn cur ++ [f] := by
            clear hf h
            cases cur with
            | none =>
                rw [callNodePath_root cn hvpar, hvf]
                rfl
            | some c =>
                rw [callNodePath_cons cn hp hvpar, hvf]
                rfl
          rcases ih (some v) m h with ⟨hrest, hvm⟩ | ⟨hmlen, hmpath⟩
          · obtain rfl : v = m := Option.some.inj hvm
            subst hrest
            exact Or.inr ⟨hvlen, by rw [hvpath]⟩
          · refine Or.inr ⟨hmlen, ?_⟩
            have hcv : curPath cn (some v) = callNodePath cn v := rfl
            rw [hmpath, hcv, hvpath, List.append_assoc]
            rfl

/-- C8: a selected call-node path carried by no call node of a well-formed
table resolves to none (no selection), not an error. -/
theorem getSelectedCallNodeIndex_pathNotFound_none (cn : CallNodeTable)
    (hwf : cn.wellFormed = true) (p : List Nat)
    (hnf : ∀ i, i < cn.func.length → callNodePath cn i ≠ p) :
    getSelectedCallNodeIndex cn p = none := by
  have hp : parentColWellFormed cn.parent = true :=
    callNodeTable_wellFormed_parentCol hwf
  cases hres : getSelectedCallNodeIndex cn p with
  | none => rfl
  | some m =>
      rcases resolvePathFrom_sound hp p none m hres with ⟨_, hcur⟩ |
        ⟨hmlen, hmpath⟩
      · cases hcur
      · have hpm : callNodePath cn m = p := by
          rw [hmpath]
          rfl
        exact absurd hpm (hnf m hmlen)

/-- Witness for C8 at a concrete call-node table and an unresolvable path. -/
theorem getSelectedCallNodeIndex_pathNotFound_none_witness :
    getSelectedCallNodeIndex exCallNodeTable [9] = none :=
  getSelectedCallNodeIndex_pathNotFound_none exCallNodeTable (by decide)
    [9] (by decide)

end Profiler
